import Mathlib

/-!
Verification of the mag-rcp-server indexing-and-retrieval pipeline.

This file gives a shallow embedding, in Lean 4, of the core functions of the
repository (chunker, embedder, vector store wrapper, retrieval tools, file
discovery) and proves or refutes the frozen behavioural claims about them.

Modelling conventions, stated once here:
* Python strings are Lean `String`s; Python `len` is `String.length`.
* Python integers are `Nat`/`Int`; store scores and `float` mtimes are `ℚ`
  (only their ordering and arithmetic matter to the claims).
* Python dicts used as payloads are association lists `List (String × PValue)`
  compared through `List.lookup` (payload equality "up to key ordering").
* External collaborators (the qdrant engine, the filesystem, the HTTP
  embedding backend, tiktoken, pathspec) are inputs of the embedded
  functions: an engine call that can raise is an `Except Unit _` argument.
  Token counting uses the source's own fallback estimate `len(text) // 4`
  (the `self.encoding = None` path of `SemanticChunker`).
* `while` loops whose progress is not structural take a `fuel : Nat`
  argument; every chunk emitted by the fueled loop is a chunk the Python
  loop emits, for any fuel.
-/

namespace Mag

/-- A JSON-scalar payload value as stored by the vector store wrapper:
strings, numbers, lists of numbers (for `lines`), booleans. -/
inductive PValue where
  | s (v : String)
  | n (v : ℚ)
  | ns (v : List ℚ)
  | b (v : Bool)
deriving DecidableEq

/-- A Python dict used as a point payload / chunk metadata. -/
abbrev Payload := List (String × PValue)

/-- Python `d[k]` / `d.get(k)` on a payload dict. -/
def dictGet (d : Payload) (k : String) : Option PValue :=
  List.lookup k d

/-- Python `{**d, k: v}`: replace the binding of `k` in place, else append. -/
def dictSet (d : Payload) (k : String) (v : PValue) : Payload :=
  match d with
  | [] => [(k, v)]
  | (k', v') :: rest => if k' = k then (k, v) :: rest else (k', v') :: dictSet rest k v

/-- Python `d.pop(k, default)`: the dict with the binding of `k` removed. -/
def dictRemove (d : Payload) (k : String) : Payload :=
  d.filter (fun p => p.1 != k)

/-- Payload equality "up to key ordering": the two dicts bind every key
to the same optional value. -/
def payloadEquiv (d₁ d₂ : Payload) : Prop :=
  ∀ k, dictGet d₁ k = dictGet d₂ k

/-- Python 3 `round(x, 2)` (banker's rounding, half-to-even), on exact
rationals. -/
def pyRound2 (q : ℚ) : ℚ :=
  let x := q * 100
  let f := ⌊x⌋
  let r := x - f
  let n : Int :=
    if r < 1/2 then f
    else if 1/2 < r then f + 1
    else if f % 2 = 0 then f else f + 1
  (n : ℚ) / 100

/-! ## Chunker data model (`src/mag/indexer/parser.py`, `chunker.py`) -/

/-- `CodeNode` dataclass of `parser.py`.  The Python field `namespace` is a
Lean keyword and is embedded as `nspace`. -/
structure CodeNode where
  type : String
  name : String
  start_line : Nat
  end_line : Nat
  code : String
  docstring : Option String := none
  parent : Option String := none
  file : Option String := none
  nspace : Option String := none
deriving DecidableEq

/-- `CodeChunk` dataclass of `chunker.py`. -/
structure CodeChunk where
  content : String
  metadata : Payload
  token_count : Nat
deriving DecidableEq

namespace SemanticChunker

/-- `SemanticChunker._count_tokens`, fallback branch (`encoding = None`):
`len(text) // 4`. -/
def count_tokens (text : String) : Nat :=
  text.length / 4

/-- `SemanticChunker._build_context_header`. -/
def build_context_header (node : CodeNode) : String :=
  let fileParts : List String :=
    match node.file with
    | some f => ["// File: " ++ f]
    | none => []
  let hierParts : List String :=
    match node.parent with
    | some p =>
      match node.nspace with
      | some ns => ["// Hierarchy: " ++ ns ++ "." ++ p ++ "." ++ node.name]
      | none => ["// Hierarchy: " ++ p ++ "." ++ node.name]
    | none =>
      match node.nspace with
      | some ns => ["// Hierarchy: " ++ ns ++ "." ++ node.name]
      | none => []
  let docParts : List String :=
    match node.docstring with
    | some d => [d]
    | none => []
  String.intercalate "\n" (fileParts ++ hierParts ++ docParts)

/-- The hierarchy string built inside `SemanticChunker._create_chunk`. -/
def hierarchy_of (node : CodeNode) : String :=
  let parts : List String :=
    (match node.nspace with | some ns => [ns] | none => []) ++
    (match node.parent with | some p => [p] | none => []) ++
    [node.name]
  String.intercalate "." parts

/-- `SemanticChunker._create_chunk`. -/
def create_chunk (content : String) (node : CodeNode) (token_count : Option Nat) : CodeChunk :=
  let tc :=
    match token_count with
    | some t => t
    | none => count_tokens content
  let base : Payload :=
    [("file", PValue.s (node.file.getD "")),
     ("lines", PValue.ns [(node.start_line : ℚ), (node.end_line : ℚ)]),
     ("type", PValue.s node.type),
     ("name", PValue.s node.name),
     ("hierarchy", PValue.s (hierarchy_of node))]
  let withParent : Payload :=
    match node.parent with
    | some p => base ++ [("parent", PValue.s p)]
    | none => base
  let md : Payload :=
    match node.nspace with
    | some ns => withParent ++ [("namespace", PValue.s ns)]
    | none => withParent
  ⟨content, md, tc⟩

/-- Split a character list at every newline (the segments between the
newlines, in order; one segment more than there are newlines). -/
def split_newlines : List Char → List (List Char)
  | [] => [[]]
  | c :: rest =>
    match split_newlines rest with
    | seg :: segs => if c = '\n' then [] :: seg :: segs else (c :: seg) :: segs
    | [] => [[]]

/-- Python `str.splitlines` restricted to `"\n"` separators (the only
separator the chunker inputs contain): empty string gives no lines, and a
trailing newline does not open a final empty line. -/
def splitlines (s : String) : List String :=
  if s.toList = [] then []
  else
    let parts := (split_newlines s.toList).map (fun cs => String.mk cs)
    if s.toList.getLast? = some '\n' then parts.dropLast else parts

/-- One end of a Python slice `xs[a:b]` normalised to a `Nat` index. -/
def py_slice_index (n : Nat) (i : Int) : Nat :=
  if i < 0 then (i + n).toNat else min i.toNat n

/-- Python list slice `xs[a:b]` (step 1, possibly negative bounds). -/
def py_slice {α : Type} (xs : List α) (a b : Int) : List α :=
  let a' := py_slice_index xs.length a
  let b' := py_slice_index xs.length b
  (xs.drop a').take (b' - a')

def lbrace : Char := '{'
def rbrace : Char := '}'
def lparen : Char := '('
def rparen : Char := ')'

/-- Does the character list start with the given pattern? -/
def starts_with_chars : List Char → List Char → Bool
  | _, [] => true
  | [], _ :: _ => false
  | a :: s, b :: p => (a == b) && starts_with_chars s p

/-- Does the pattern occur contiguously in the character list? -/
def contains_chars (s pat : List Char) : Bool :=
  match s with
  | [] => pat.isEmpty
  | _ :: rest => starts_with_chars s pat || contains_chars rest pat

/-- Python `pat in line` for strings. -/
def contains_sub (line pat : String) : Bool :=
  contains_chars line.toList pat.toList

/-- The keyword probe list of `SemanticChunker._extract_signature`. -/
def keyword_list : List String :=
  ["void ", "int ", "string ", "public ", "private ", "protected ", "bool ",
   "double ", "float "]

/-- Loop state of `SemanticChunker._extract_signature`. -/
structure SigState where
  sig_lines : List String
  brace_count : Int
  in_method : Bool
  prev_sig : Bool
deriving DecidableEq

/-- One iteration of the `for line in lines` loop of `_extract_signature`. -/
def sig_step (st : SigState) (line : String) : SigState :=
  let stripped := line.trim
  let st1 : SigState :=
    if st.prev_sig && (stripped.toList == [lbrace]) then
      { st with in_method := true, prev_sig := false }
    else st
  let is_sig_line : Bool :=
    line.toList.contains lparen && line.toList.contains rparen &&
    !st1.in_method && decide (st1.brace_count ≥ 1) &&
    keyword_list.any (fun k => contains_sub line k)
  if is_sig_line && !(line.toList.contains lbrace) then
    { st1 with prev_sig := true, sig_lines := st1.sig_lines ++ [line] }
  else
    let st2 : SigState := if is_sig_line then { st1 with in_method := true } else st1
    let bc : Int :=
      st2.brace_count + (line.toList.count lbrace : Int) - (line.toList.count rbrace : Int)
    let st3 : SigState := { st2 with brace_count := bc }
    if !st3.in_method then
      { st3 with sig_lines := st3.sig_lines ++ [line] }
    else if bc == 1 && line.toList.contains rbrace then
      { st3 with in_method := false,
                 sig_lines := st3.sig_lines ++
                   ["    // ... method body omitted ...", line] }
    else st3

/-- `SemanticChunker._extract_signature`. -/
def extract_signature (code : String) : String :=
  let lines := splitlines code
  let final := lines.foldl sig_step ⟨[], 0, false, false⟩
  String.intercalate "\n" final.sig_lines

/-- The inner `while token_count > self.chunk_size and len(chunk_lines) > 1`
shrink loop of `_sliding_window_chunk`, on a structural step bound (each
iteration drops one trailing line, so `ls.length` steps always suffice). -/
def shrink_window_aux (chunk_size : Nat) (context_header : String) :
    Nat → List String → List String
  | 0, ls => ls
  | n + 1, ls =>
    if chunk_size < count_tokens (context_header ++ "\n" ++ String.intercalate "\n" ls)
        ∧ 1 < ls.length then
      shrink_window_aux chunk_size context_header n ls.dropLast
    else ls

/-- The shrink loop of `_sliding_window_chunk`: drop trailing lines until
the chunk fits or a single line remains. -/
def shrink_window (chunk_size : Nat) (context_header : String) (ls : List String) :
    List String :=
  shrink_window_aux chunk_size context_header ls.length ls

/-- The outer `while start_idx < len(lines)` loop of `_sliding_window_chunk`,
as a fueled recursion over the Python-integer `start_idx`. -/
def sliding_loop (chunk_size : Nat) (node : CodeNode) (context_header : String)
    (lines : List String) (est_lines_per_chunk overlap_lines : Nat) :
    Nat → Int → List CodeChunk
  | 0, _ => []
  | fuel + 1, start_idx =>
    if start_idx < (lines.length : Int) then
      let end_idx : Int := min (start_idx + (est_lines_per_chunk : Int)) (lines.length : Int)
      let window := py_slice lines start_idx end_idx
      let chunk_lines := shrink_window chunk_size context_header window
      let chunk_content := context_header ++ "\n" ++ String.intercalate "\n" chunk_lines
      let token_count := count_tokens chunk_content
      let emitted : List CodeChunk :=
        if chunk_lines.isEmpty then []
        else [create_chunk chunk_content node (some token_count)]
      let start' : Int := end_idx - (overlap_lines : Int)
      if start' ≥ (lines.length : Int) - (overlap_lines : Int) then emitted
      else
        emitted ++
          sliding_loop chunk_size node context_header lines est_lines_per_chunk
            overlap_lines fuel start'
    else []

/-- `SemanticChunker._sliding_window_chunk`. -/
def sliding_window_chunk (chunk_size overlap fuel : Nat) (node : CodeNode)
    (context_header : String) : List CodeChunk :=
  let lines := splitlines node.code
  if lines.isEmpty then []
  else
    let est_lines_per_chunk := max 5 (chunk_size / 6)
    let overlap_lines := max 1 (overlap / 6)
    sliding_loop chunk_size node context_header lines est_lines_per_chunk overlap_lines
      fuel 0

/-- `SemanticChunker._split_large_node`. -/
def split_large_node (chunk_size overlap fuel : Nat) (node : CodeNode)
    (context_header : String) : List CodeChunk :=
  let chunks : List CodeChunk :=
    if node.type = "class" ∨ node.type = "interface" ∨ node.type = "struct" then
      let signature := extract_signature node.code
      let signature_content := context_header ++ "\n" ++ signature
      if count_tokens signature_content ≤ chunk_size then
        [create_chunk signature_content node none]
      else []
    else
      sliding_window_chunk chunk_size overlap fuel node context_header
  if chunks.isEmpty then
    [create_chunk (context_header ++ "\n" ++ node.code) node none]
  else chunks

/-- `SemanticChunker._chunk_node`. -/
def chunk_node (chunk_size overlap fuel : Nat) (node : CodeNode) : List CodeChunk :=
  let context_header := build_context_header node
  let full_content := context_header ++ "\n" ++ node.code
  let token_count := count_tokens full_content
  if token_count ≤ chunk_size then
    [create_chunk full_content node (some token_count)]
  else
    split_large_node chunk_size overlap fuel node context_header

/-- `SemanticChunker.chunk_nodes`. -/
def chunk_nodes (chunk_size overlap fuel : Nat) (nodes : List CodeNode) : List CodeChunk :=
  (nodes.map (chunk_node chunk_size overlap fuel)).flatten

end SemanticChunker

/-! ## Vector store wrapper (`src/mag/retrieval/vector_store.py`)

The qdrant engine is the external collaborator: its collection is modelled
as an association list from the UUID key string to the stored point, and
an engine call that can raise is an `Except Unit _` input.  `uuid5` of the
fixed namespace UUID is modelled as a parameter `to_uuid : String → String`
(collision-freeness, where a claim needs it, is an explicit hypothesis). -/

/-- A stored qdrant point: vector plus payload. -/
structure StoredPoint where
  vector : List ℚ
  payload : Payload
deriving DecidableEq

/-- The engine collection: UUID-keyed points, `none` when the collection
does not exist. -/
abbrev Collection := List (String × StoredPoint)

/-- The embedded-mode engine state seen through the wrapper: the configured
vector size and the (possibly missing) collection. -/
structure VSState where
  vector_size : Nat
  coll : Option Collection
deriving DecidableEq

namespace VectorStore

/-- `VectorStore._ensure_collection`. -/
def ensure_collection (st : VSState) : VSState :=
  match st.coll with
  | none => { st with coll := some [] }
  | some _ => st

/-- Engine `upsert` of one point: replace by key, else append. -/
def upsert_point (c : Collection) (key : String) (p : StoredPoint) : Collection :=
  match c with
  | [] => [(key, p)]
  | (k', p') :: rest =>
    if k' = key then (key, p) :: rest else (k', p') :: upsert_point rest key p

/-- Engine `upsert` of a point batch, in input order. -/
def upsert_points (c : Collection) (pts : List (String × StoredPoint)) : Collection :=
  pts.foldl (fun acc kp => upsert_point acc kp.1 kp.2) c

/-- The payload built by `VectorStore.add_embeddings` for one point:
`{**metadata, "document": document, "_original_id": point_id}`. -/
def build_payload (metadata : Payload) (document : String) (point_id : String) : Payload :=
  dictSet (dictSet metadata "document" (PValue.s document)) "_original_id" (PValue.s point_id)

/-- `VectorStore.add_embeddings`.  Raises `ValueError` (the `Except.error`)
on a length mismatch; returns the store unchanged when the batch is empty;
otherwise recreates the collection on a vector-size change and upserts the
batch. -/
def add_embeddings (to_uuid : String → String) (st : VSState)
    (embeddings : List (List ℚ)) (documents : List String)
    (metadatas : List Payload) (ids : List String) : Except Unit VSState :=
  if ¬ (embeddings.length = documents.length ∧ documents.length = metadatas.length
        ∧ metadatas.length = ids.length) then
    Except.error ()
  else if embeddings.isEmpty then
    Except.ok st
  else
    let st1 :=
      match embeddings.head? with
      | some e0 =>
        if e0.length ≠ st.vector_size then
          ensure_collection { vector_size := e0.length, coll := none }
        else st
      | none => st
    let points : List (String × StoredPoint) :=
      (embeddings.zip (documents.zip (metadatas.zip ids))).map
        (fun x =>
          let embedding := x.1
          let document := x.2.1
          let metadata := x.2.2.1
          let point_id := x.2.2.2
          (to_uuid point_id, ⟨embedding, build_payload metadata document point_id⟩))
    let base : Collection :=
      match st1.coll with
      | some c => c
      | none => []   -- upsert on a missing collection raises; the handler recreates and retries
    Except.ok { st1 with coll := some (upsert_points base points) }

/-- A point as returned by engine `query_points`: id, payload, similarity
score. -/
structure ScoredPoint where
  id : String
  payload : Payload
  score : ℚ
deriving DecidableEq

/-- The dictionary returned by `VectorStore.search`. -/
structure SearchResultDict where
  ids : List PValue
  documents : List PValue
  metadatas : List Payload
  distances : List ℚ
deriving DecidableEq

/-- The empty result dictionary returned when `query_points` raises. -/
def empty_search_result : SearchResultDict := ⟨[], [], [], []⟩

/-- The per-point formatting step of `VectorStore.search`: pop
`_original_id` (default: the engine id) and `document` (default `""`) from
the payload, and report the engine score under the key `distances`. -/
def format_point (r : ScoredPoint) : PValue × PValue × Payload × ℚ :=
  let original_id :=
    match dictGet r.payload "_original_id" with
    | some v => v
    | none => PValue.s r.id
  let document :=
    match dictGet (dictRemove r.payload "_original_id") "document" with
    | some v => v
    | none => PValue.s ""
  let metadata := dictRemove (dictRemove r.payload "_original_id") "document"
  (original_id, document, metadata, r.score)

/-- `VectorStore.search`, given the outcome of the engine `query_points`
call (`Except.error` when the collection is missing or the call raises). -/
def search (engine_points : Except Unit (List ScoredPoint)) : SearchResultDict :=
  match engine_points with
  | Except.error _ => empty_search_result
  | Except.ok results =>
    { ids := results.map (fun r => (format_point r).1)
      documents := results.map (fun r => (format_point r).2.1)
      metadatas := results.map (fun r => (format_point r).2.2.1)
      distances := results.map (fun r => (format_point r).2.2.2) }

/-- `VectorStore.get_by_id` result record. -/
structure RetrievedPoint where
  id : PValue
  document : PValue
  metadata : Payload
  embedding : List ℚ
deriving DecidableEq

/-- `VectorStore.get_by_id`: engine `retrieve` on a missing collection
raises (caught, `none`); an absent id gives an empty result (`none`);
otherwise pop `_original_id` (default: the queried id) and `document`
(default `""`) out of the payload. -/
def get_by_id (to_uuid : String → String) (st : VSState) (chunk_id : String) :
    Option RetrievedPoint :=
  match st.coll with
  | none => none
  | some c =>
    match List.lookup (to_uuid chunk_id) c with
    | none => none
    | some p =>
      let original_id :=
        match dictGet p.payload "_original_id" with
        | some v => v
        | none => PValue.s chunk_id
      let document :=
        match dictGet (dictRemove p.payload "_original_id") "document" with
        | some v => v
        | none => PValue.s ""
      some
        { id := original_id
          document := document
          metadata := dictRemove (dictRemove p.payload "_original_id") "document"
          embedding := p.vector }

/-- Does a stored point carry `payload.file = file_path`? -/
def matches_file (file_path : String) (kp : String × StoredPoint) : Bool :=
  match dictGet kp.2.payload "file" with
  | some (PValue.s f) => f == file_path
  | _ => false

/-- `VectorStore.delete_by_file`: scroll (limit 10000) the points whose
payload `file` equals the argument, delete them by engine id, and return
how many were deleted; any engine error — in embedded mode, the missing
collection — is caught and reported as 0 with the store untouched. -/
def delete_by_file (st : VSState) (file_path : String) : Nat × VSState :=
  match st.coll with
  | none => (0, st)
  | some c =>
    let points := (c.filter (matches_file file_path)).take 10000
    if points.isEmpty then (0, st)
    else
      let uuids_to_delete := points.map (fun kp => kp.1)
      let c' := c.filter (fun kp => ¬ uuids_to_delete.contains kp.1)
      (uuids_to_delete.length, { st with coll := some c' })

end VectorStore

/-! ## `search_code` tool (`src/mag/tools/search_code.py`) -/

/-- One formatted result of `search_code`. -/
structure SearchCodeResult where
  content : PValue
  file : PValue
  lines : PValue
  type : PValue
  name : PValue
  hierarchy : PValue
  relevance_score : ℚ
deriving DecidableEq

namespace SearchCode

/-- The `metadata.get(key, default)` projections of `search_code`. -/
def project (metadata : Payload) (document : PValue) (relevance : ℚ) : SearchCodeResult :=
  { content := document
    file := (dictGet metadata "file").getD (PValue.s "")
    lines := (dictGet metadata "lines").getD (PValue.ns [0, 0])
    type := (dictGet metadata "type").getD (PValue.s "unknown")
    name := (dictGet metadata "name").getD (PValue.s "")
    hierarchy := (dictGet metadata "hierarchy").getD (PValue.s "")
    relevance_score := pyRound2 relevance }

/-- The result-formatting loop of `search_code`: for each store result,
`relevance = 1.0 - distance`; results with `relevance <
similarity_threshold` are skipped; kept results report
`round(relevance, 2)`. -/
def format_results (similarity_threshold : ℚ)
    (rows : List (PValue × PValue × Payload × ℚ)) : List SearchCodeResult :=
  match rows with
  | [] => []
  | (_, document, metadata, distance) :: rest =>
    let relevance := 1 - distance
    if relevance < similarity_threshold then
      format_results similarity_threshold rest
    else
      project metadata document relevance :: format_results similarity_threshold rest

/-- The row list `zip(ids, documents, metadatas, distances)` of a search
result dictionary (the Python loop indexes the four lists in lockstep). -/
def rows_of (d : VectorStore.SearchResultDict) : List (PValue × PValue × Payload × ℚ) :=
  d.ids.zip (d.documents.zip (d.metadatas.zip d.distances))

/-- `search_code`, from the store's result dictionary onward (the query
embedding itself comes from the external backend). -/
def search_code (similarity_threshold : ℚ) (results : VectorStore.SearchResultDict) :
    List SearchCodeResult :=
  format_results similarity_threshold (rows_of results)

end SearchCode

/-! ## SHA-256 (model of `hashlib.sha256`, FIPS 180-4)

`CodebaseEmbedder._generate_chunk_id` hashes with `hashlib.sha256`; the
hash is embedded here in full so the chunk-id function is executable. -/

namespace Sha256

/-- 2^32. -/
def M32 : Nat := 4294967296

def add32 (a b : Nat) : Nat := (a + b) % M32

/-- Right rotation of a 32-bit word, arithmetically. -/
def rotr32 (n x : Nat) : Nat := x / 2 ^ n + x % 2 ^ n * 2 ^ (32 - n)

/-- Logical right shift of a 32-bit word. -/
def shr32 (n x : Nat) : Nat := x / 2 ^ n

/-- Bitwise complement of a 32-bit word. -/
def not32 (x : Nat) : Nat := x ^^^ (M32 - 1)

def ch (x y z : Nat) : Nat := (x &&& y) ^^^ (not32 x &&& z)

def maj (x y z : Nat) : Nat := (x &&& y) ^^^ (x &&& z) ^^^ (y &&& z)

def bigSigma0 (x : Nat) : Nat := rotr32 2 x ^^^ rotr32 13 x ^^^ rotr32 22 x

def bigSigma1 (x : Nat) : Nat := rotr32 6 x ^^^ rotr32 11 x ^^^ rotr32 25 x

def smallSigma0 (x : Nat) : Nat := rotr32 7 x ^^^ rotr32 18 x ^^^ shr32 3 x

def smallSigma1 (x : Nat) : Nat := rotr32 17 x ^^^ rotr32 19 x ^^^ shr32 10 x

/-- The 64 round constants (FIPS 180-4 section 4.2.2, in decimal). -/
def K : List Nat :=
  [1116352408, 1899447441, 3049323471, 3921009573,
   961987163, 1508970993, 2453635748, 2870763221,
   3624381080, 310598401, 607225278, 1426881987,
   1925078388, 2162078206, 2614888103, 3248222580,
   3835390401, 4022224774, 264347078, 604807628,
   770255983, 1249150122, 1555081692, 1996064986,
   2554220882, 2821834349, 2952996808, 3210313671,
   3336571891, 3584528711, 113926993, 338241895,
   666307205, 773529912, 1294757372, 1396182291,
   1695183700, 1986661051, 2177026350, 2456956037,
   2730485921, 2820302411, 3259730800, 3345764771,
   3516065817, 3600352804, 4094571909, 275423344,
   430227734, 506948616, 659060556, 883997877,
   958139571, 1322822218, 1537002063, 1747873779,
   1955562222, 2024104815, 2227730452, 2361852424,
   2428436474, 2756734187, 3204031479, 3329325298]

/-- Big-endian byte rendering of `n` over `k` bytes. -/
def bytesBE (k n : Nat) : List Nat :=
  (List.range k).map (fun i => n / 2 ^ (8 * (k - 1 - i)) % 256)

/-- FIPS padding: append `0x80`, zeros, and the 64-bit message bit length. -/
def pad (msg : List Nat) : List Nat :=
  let len := msg.length
  let zeros := (64 - (len + 9) % 64) % 64
  msg ++ [0x80] ++ List.replicate zeros 0 ++ bytesBE 8 (len * 8)

/-- Split the padded message into 64-byte blocks (structural recursion on
a step bound so the kernel can evaluate it). -/
def toBlocksAux : Nat → List Nat → List (List Nat)
  | 0, _ => []
  | n + 1, bs => if bs.isEmpty then [] else bs.take 64 :: toBlocksAux n (bs.drop 64)

/-- Split the padded message into 64-byte blocks. -/
def toBlocks (bs : List Nat) : List (List Nat) :=
  toBlocksAux bs.length bs

/-- The first 16 message-schedule words of a block (big-endian). -/
def blockWords (b : List Nat) : List Nat :=
  (List.range 16).map (fun i => ((b.drop (4 * i)).take 4).foldl (fun a x => a * 256 + x) 0)

/-- One message-schedule extension step. -/
def scheduleStep (w : List Nat) : List Nat :=
  let n := w.length
  let wi := fun i => w.getD i 0
  w ++ [add32 (add32 (smallSigma1 (wi (n - 2))) (wi (n - 7)))
          (add32 (smallSigma0 (wi (n - 15))) (wi (n - 16)))]

/-- The 64-word message schedule. -/
def fullSchedule (w16 : List Nat) : List Nat :=
  (List.range 48).foldl (fun w _ => scheduleStep w) w16

/-- The eight 32-bit working variables. -/
structure Hash8 where
  a : Nat
  b : Nat
  c : Nat
  d : Nat
  e : Nat
  f : Nat
  g : Nat
  h : Nat
deriving DecidableEq

/-- The initial hash value (FIPS 180-4 section 5.3.3, in decimal). -/
def H0 : Hash8 :=
  ⟨1779033703, 3144134277, 1013904242, 2773480762, 1359893119, 2600822924,
   528734635, 1541459225⟩

/-- One compression round, consuming a `(K_t, W_t)` pair. -/
def compressStep (st : Hash8) (kw : Nat × Nat) : Hash8 :=
  let t1 := add32 st.h (add32 (bigSigma1 st.e) (add32 (ch st.e st.f st.g) (add32 kw.1 kw.2)))
  let t2 := add32 (bigSigma0 st.a) (maj st.a st.b st.c)
  ⟨add32 t1 t2, st.a, st.b, st.c, add32 st.d t1, st.e, st.f, st.g⟩

/-- Compression of one 64-byte block. -/
def compressBlock (hv : Hash8) (block : List Nat) : Hash8 :=
  let w := fullSchedule (blockWords block)
  let s := (K.zip w).foldl compressStep hv
  ⟨add32 hv.a s.a, add32 hv.b s.b, add32 hv.c s.c, add32 hv.d s.d,
   add32 hv.e s.e, add32 hv.f s.f, add32 hv.g s.g, add32 hv.h s.h⟩

/-- SHA-256 of a byte list, as 32 digest bytes. -/
def digestBytes (msg : List Nat) : List Nat :=
  let hv := (toBlocks (pad msg)).foldl compressBlock H0
  (([hv.a, hv.b, hv.c, hv.d, hv.e, hv.f, hv.g, hv.h]).map (bytesBE 4)).flatten

def hexChar (n : Nat) : Char :=
  if n < 10 then Char.ofNat (48 + n) else Char.ofNat (87 + n)

def byteHex (b : Nat) : List Char := [hexChar (b / 16), hexChar (b % 16)]

/-- `hashlib.sha256(...).hexdigest()`. -/
def hexdigest (msg : List Nat) : String :=
  String.mk (((digestBytes msg).map byteHex).flatten)

/-- UTF-8 bytes of one character (Python `str.encode("utf-8")`). -/
def utf8Char (c : Char) : List Nat :=
  let n := c.toNat
  if n < 128 then [n]
  else if n < 2048 then [192 + n / 64, 128 + n % 64]
  else if n < 65536 then [224 + n / 4096, 128 + n / 64 % 64, 128 + n % 64]
  else [240 + n / 262144, 128 + n / 4096 % 64, 128 + n / 64 % 64, 128 + n % 64]

/-- Python `s.encode("utf-8")`. -/
def utf8Encode (s : String) : List Nat :=
  (s.toList.map utf8Char).flatten

end Sha256

/-! ## Indexer orchestration (`src/mag/indexer/embedder.py`) -/

namespace CodebaseEmbedder

/-- `CodebaseEmbedder._generate_chunk_id`. -/
def generate_chunk_id (file_path content : String) : String :=
  let hash_input := file_path ++ ":" ++ content
  let hash_digest := Sha256.hexdigest (Sha256.utf8Encode hash_input)
  "chunk_" ++ hash_digest.take 16

/-- The chunk-id list produced by `CodebaseEmbedder._index_file` for the
chunks of one file. -/
def index_file_ids (file_path : String) (chunks : List CodeChunk) : List String :=
  chunks.map (fun chunk => generate_chunk_id file_path chunk.content)

/-- The `collection.get(where={"file": f}, limit=1)` result consumed by
`_needs_reindexing`. -/
structure GetResult where
  ids : List PValue
  metadatas : List Payload
deriving DecidableEq

/-- The stored modification time read by `_needs_reindexing`:
`results["metadatas"][0].get("file_mtime")`. -/
def stored_file_mtime (r : GetResult) : Option PValue :=
  match r.metadatas.head? with
  | none => none
  | some m => dictGet m "file_mtime"

/-- `CodebaseEmbedder._needs_reindexing`.  `stat_mtime` is the outcome of
`file_path.stat().st_mtime` and `get_result` that of the store lookup; any
raised error is caught by the enclosing `try` and yields `true`.  A stored
`file_mtime` that is not a number makes the Python comparison raise
`TypeError`, also caught (`true`). -/
def needs_reindexing (stat_mtime : Except Unit ℚ) (get_result : Except Unit GetResult) :
    Bool :=
  match stat_mtime with
  | Except.error _ => true
  | Except.ok current_mtime =>
    match get_result with
    | Except.error _ => true
    | Except.ok results =>
      if results.ids.isEmpty then true
      else
        match results.metadatas.head? with
        | none => true
        | some m =>
          match dictGet m "file_mtime" with
          | none => true
          | some (PValue.n stored_mtime) => decide (current_mtime > stored_mtime)
          | some _ => true

/-- The statistics dictionary returned by `CodebaseEmbedder.index_codebase`. -/
structure IndexStats where
  files_processed : Nat
  chunks_created : Nat
  errors : Nat
  files_skipped : Nat
deriving DecidableEq

/-- `CodebaseEmbedder.index_codebase` over discovered `files`.  `needs` is
`_needs_reindexing` and `index_file` the per-file task outcome (chunk count
or a counted, logged failure).  The worker pool only permutes task
completion order; the totals are order-independent sums, so the pool is
modelled by mapping `index_file` over the selected files. -/
def index_codebase {α : Type} (files : List α) (needs : α → Bool) (incremental : Bool)
    (index_file : α → Except Unit Nat) : IndexStats :=
  if files.isEmpty then ⟨0, 0, 0, 0⟩
  else
    let files_to_index := if incremental then files.filter needs else files
    let files_skipped :=
      if incremental then (files.filter (fun f => ¬ needs f)).length else 0
    if files_to_index.isEmpty then ⟨0, 0, 0, files_skipped⟩
    else
      let results := files_to_index.map index_file
      { files_processed := files_to_index.length
        chunks_created :=
          (results.map (fun r => match r with | Except.ok n => n | Except.error _ => 0)).sum
        errors :=
          (results.filter (fun r => match r with | Except.ok _ => false | Except.error _ => true)).length
        files_skipped := files_skipped }

end CodebaseEmbedder

/-! ## `get_file` tool (`src/mag/tools/get_file.py`)

Paths are component lists; `codebase_root` is the (already resolved)
absolute root.  `Path.resolve` without symlinks is lexical normalisation
of `.` and `..`; `Path.relative_to` succeeds exactly when the root's
components are a leading run of the resolved path's components. -/

namespace GetFile

/-- A Python path argument: possibly absolute (in `root / path`, an
absolute right operand discards the root). -/
structure PyPath where
  absolute : Bool
  comps : List String
deriving DecidableEq

/-- Lexical `Path.resolve`: drop `.` and empty components, fold `..` into
the accumulated (absolute) path, where `..` at the filesystem root stays
at the root. -/
def resolve_comps (acc : List String) : List String → List String
  | [] => acc
  | c :: rest =>
    if c = "." ∨ c = "" then resolve_comps acc rest
    else if c = ".." then resolve_comps acc.dropLast rest
    else resolve_comps (acc ++ [c]) rest

/-- `(codebase_root / path).resolve()`. -/
def resolved_path (codebase_root : List String) (path : PyPath) : List String :=
  resolve_comps [] (if path.absolute then path.comps else codebase_root ++ path.comps)

inductive GetFileError where
  | security
  | not_found
deriving DecidableEq

/-- `get_file`, up to the returned content (the AST branch and the UTF-8
decode error branch do not bear on the claims; `fs` maps an existing
file's resolved components to its content). -/
def get_file (codebase_root : List String) (path : PyPath)
    (fs : List String → Option String) : Except GetFileError (List String × String) :=
  let file_path := resolved_path codebase_root path
  if ¬ codebase_root.isPrefixOf file_path then
    Except.error GetFileError.security
  else
    match fs file_path with
    | none => Except.error GetFileError.not_found
    | some content => Except.ok (file_path, content)

end GetFile

/-! ## File discovery (`src/mag/indexer/discovery.py`)

The filesystem is a list of entries (component path, regular-file flag);
`pathspec` gitwildmatch matching and the merged gitignore spec are the
external matchers, taken as predicates on the relative POSIX path. -/

namespace CodebaseDiscovery

structure FSEntry where
  path : List String
  is_file : Bool
deriving DecidableEq

/-- POSIX rendering of a relative component path. -/
def posix_str (comps : List String) : String :=
  String.intercalate "/" comps

/-- `str(path)` for an absolute path, the key `sorted` compares. -/
def path_str (comps : List String) : String :=
  "/" ++ posix_str comps

/-- `Path.suffix`: the final extension of the last component (empty for
dotfiles and for a trailing dot). -/
def py_suffix (name : String) : String :=
  let cs := name.toList
  match cs.reverse.indexOf? '.' with
  | none => ""
  | some j =>
    let i := cs.length - 1 - j
    if 0 < i ∧ i < cs.length - 1 then String.mk (cs.drop i) else ""

/-- `CodebaseDiscovery._should_index_file`. -/
def should_index_file (root : List String) (file_extensions : List String)
    (exclude_match : String → Bool) (gitignore_match : Option (String → Bool))
    (entry : FSEntry) : Bool :=
  if ¬ entry.is_file then false
  else if ¬ file_extensions.any
      (fun ext => py_suffix ((entry.path.getLast?).getD "") == ext) then false
  else if ¬ root.isPrefixOf entry.path then false
  else
    let rel_path_str := posix_str (entry.path.drop root.length)
    if exclude_match rel_path_str then false
    else
      match gitignore_match with
      | some g => ¬ g rel_path_str
      | none => true

/-- `root_path.rglob("*")`: every entry strictly below the root. -/
def rglob (root : List String) (fs : List FSEntry) : List FSEntry :=
  fs.filter (fun e => root.isPrefixOf e.path && decide (root.length < e.path.length))

/-- `CodebaseDiscovery.discover_files` on an existing root (`__init__`
raises `ValueError` — the spec's `ConfigError` — before this point when
the root does not exist; see `discovery_init`). -/
def discover_files (root : List String) (file_extensions : List String)
    (exclude_match : String → Bool) (gitignore_match : Option (String → Bool))
    (fs : List FSEntry) : List (List String) :=
  let discovered :=
    ((rglob root fs).filter
      (should_index_file root file_extensions exclude_match gitignore_match)).map
      (fun e => e.path)
  discovered.mergeSort (fun a b => path_str a ≤ path_str b)

inductive ConfigError where
  | root_missing
deriving DecidableEq

/-- `CodebaseDiscovery.__init__`: raises when the root path does not
exist. -/
def discovery_init (root_exists : Bool) : Except ConfigError Unit :=
  if root_exists then Except.ok () else Except.error ConfigError.root_missing

end CodebaseDiscovery

/-! ## Sanity checks of the embedding -/

/-- FIPS 180-4 test vector: SHA-256 of the empty message. -/
theorem sha256_empty_vector :
    Sha256.hexdigest (Sha256.utf8Encode "") =
      "e3b0c44298fc1c149afbf4c8996fb92427ae41e4649b934ca495991b7852b855" := by
  decide

/-- FIPS 180-4 test vector: SHA-256 of `"abc"`. -/
theorem sha256_abc_vector :
    Sha256.hexdigest (Sha256.utf8Encode "abc") =
      "ba7816bf8f01cfea414140de5dae2223b00361a396177a9cb410ff61f20015ad" := by
  decide

/-! ## Claim theorems -/

/-- **C4.** For every path argument, `get_file` resolves it against the
codebase root and raises a hard error (the `SecurityError` of the spec's
taxonomy, `ValueError` in the source) whenever the resolved path does not
normalize to a subpath of the codebase root; no file content is returned
in that case. -/
theorem C4_get_file_path_escape
    (codebase_root : List String) (path : GetFile.PyPath)
    (fs : List String → Option String)
    (h : ¬ codebase_root.isPrefixOf (GetFile.resolved_path codebase_root path)) :
    GetFile.get_file codebase_root path fs =
      Except.error GetFile.GetFileError.security := by
  unfold GetFile.get_file
  simp [h]

/-- **C4 witness.** `get_file("../../etc/passwd")` from root
`/home/user/project` resolves to `/home/etc/passwd`, escapes the root and
is rejected, even though the file exists. -/
theorem C4_get_file_path_escape_witness :
    ¬ (["home", "user", "project"] : List String).isPrefixOf
        (GetFile.resolved_path ["home", "user", "project"]
          ⟨false, ["..", "..", "etc", "passwd"]⟩) ∧
    GetFile.get_file ["home", "user", "project"]
        ⟨false, ["..", "..", "etc", "passwd"]⟩
        (fun _ => some "root:x:0:0:root:/root:/bin/bash") =
      Except.error GetFile.GetFileError.security :=
  ⟨by decide,
   C4_get_file_path_escape ["home", "user", "project"]
     ⟨false, ["..", "..", "etc", "passwd"]⟩
     (fun _ => some "root:x:0:0:root:/root:/bin/bash") (by decide)⟩

/-- **C9.** `add_embeddings` raises `ValueError` whenever the embeddings,
documents, metadatas and ids lists do not all have the same length, and
when all four lists are empty it returns with the store state completely
unchanged (no collection recreation, no upsert). -/
theorem C9_add_embeddings_validation
    (to_uuid : String → String) (st : VSState)
    (embeddings : List (List ℚ)) (documents : List String)
    (metadatas : List Payload) (ids : List String) :
    (¬ (embeddings.length = documents.length ∧ documents.length = metadatas.length
        ∧ metadatas.length = ids.length) →
      VectorStore.add_embeddings to_uuid st embeddings documents metadatas ids =
        Except.error ()) ∧
    (embeddings = [] ∧ documents = [] ∧ metadatas = [] ∧ ids = [] →
      VectorStore.add_embeddings to_uuid st embeddings documents metadatas ids =
        Except.ok st) := by
  constructor
  · intro h
    unfold VectorStore.add_embeddings
    simp [h]
  · rintro ⟨he, hd, hm, hi⟩
    subst he hd hm hi
    unfold VectorStore.add_embeddings
    simp

/-- **C9 witness.** A batch with one embedding and empty companion lists is
rejected; the all-empty batch leaves the fresh store untouched. -/
theorem C9_add_embeddings_validation_witness :
    VectorStore.add_embeddings (fun s => s) ⟨384, none⟩ [[1]] [] [] [] =
        Except.error () ∧
    VectorStore.add_embeddings (fun s => s) ⟨384, none⟩ [] [] [] [] =
        Except.ok ⟨384, none⟩ :=
  ⟨(C9_add_embeddings_validation (fun s => s) ⟨384, none⟩ [[1]] [] [] []).1 (by decide),
   (C9_add_embeddings_validation (fun s => s) ⟨384, none⟩ [] [] [] []).2
     ⟨rfl, rfl, rfl, rfl⟩⟩

/-- **C10.** `delete_by_file` never raises: on an underlying store error
(in embedded mode, the missing collection) it returns 0 with the store
untouched, so a 0 return does not distinguish "no points stored for this
file" from a store failure; on success it returns exactly the number of
points whose `payload.file` equals the argument among the first 10000
scrolled points. -/
theorem C10_delete_by_file_behaviour (st : VSState) (file_path : String) :
    (st.coll = none → VectorStore.delete_by_file st file_path = (0, st)) ∧
    (∀ c, st.coll = some c →
      (VectorStore.delete_by_file st file_path).1 =
        ((c.filter (VectorStore.matches_file file_path)).take 10000).length) ∧
    (∃ st_err st_empty : VSState, st_err.coll = none ∧ st_empty.coll = some [] ∧
      (VectorStore.delete_by_file st_err file_path).1 = 0 ∧
      (VectorStore.delete_by_file st_empty file_path).1 = 0) := by
  refine ⟨?_, ?_, ⟨⟨st.vector_size, none⟩, ⟨st.vector_size, some []⟩, rfl, rfl, rfl, rfl⟩⟩
  · intro h
    unfold VectorStore.delete_by_file
    simp [h]
  · intro c h
    unfold VectorStore.delete_by_file
    rw [h]
    by_cases hp : ((c.filter (VectorStore.matches_file file_path)).take 10000).isEmpty
    · simp [hp, List.isEmpty_iff.mp hp]
    · simp [hp]

/-- **C10 witness.** Concrete evaluations: missing collection gives 0 and an
unchanged store; a two-point collection with one matching point gives 1. -/
theorem C10_delete_by_file_behaviour_witness :
    VectorStore.delete_by_file ⟨384, none⟩ "A.cs" = (0, ⟨384, none⟩) ∧
    (VectorStore.delete_by_file
        ⟨384, some [("u1", ⟨[1], [("file", PValue.s "A.cs")]⟩),
                    ("u2", ⟨[2], [("file", PValue.s "B.cs")]⟩)]⟩ "A.cs").1 = 1 :=
  ⟨(C10_delete_by_file_behaviour ⟨384, none⟩ "A.cs").1 rfl,
   by
    rw [(C10_delete_by_file_behaviour
        ⟨384, some [("u1", ⟨[1], [("file", PValue.s "A.cs")]⟩),
                    ("u2", ⟨[2], [("file", PValue.s "B.cs")]⟩)]⟩ "A.cs").2.1
        [("u1", ⟨[1], [("file", PValue.s "A.cs")]⟩),
         ("u2", ⟨[2], [("file", PValue.s "B.cs")]⟩)] rfl]
    decide⟩

/-- **C8.** A search against a missing collection (the engine call raises)
or an empty one (the engine returns no points) never raises and yields the
empty result dictionary, and `search_code` on it returns `[]`. -/
theorem C8_search_empty_store (similarity_threshold : ℚ)
    (engine_points : Except Unit (List VectorStore.ScoredPoint))
    (h : engine_points = Except.error () ∨ engine_points = Except.ok []) :
    VectorStore.search engine_points = VectorStore.empty_search_result ∧
    SearchCode.search_code similarity_threshold (VectorStore.search engine_points) = [] := by
  rcases h with h | h <;> subst h <;>
    simp [VectorStore.search, VectorStore.empty_search_result, SearchCode.search_code,
      SearchCode.rows_of, SearchCode.format_results]

/-- **C8 witness.** With the default threshold 0.7 and a raising engine
call, the search result is empty and `search_code` returns `[]`. -/
theorem C8_search_empty_store_witness :
    VectorStore.search (Except.error ()) = VectorStore.empty_search_result ∧
    SearchCode.search_code (7/10) (VectorStore.search (Except.error ())) = [] :=
  C8_search_empty_store (7/10) (Except.error ()) (Or.inl rfl)

/-- **C5.** The chunk id equals `"chunk_" + hex(sha256(f + ":" + c))[:16]`;
the function is deterministic, so equal `(f, c)` pairs always yield equal
ids, and re-indexing the same unchanged file (hence the same chunk list)
yields the same chunk ids. -/
theorem C5_chunk_id_deterministic :
    (∀ f c, CodebaseEmbedder.generate_chunk_id f c =
      "chunk_" ++ (Sha256.hexdigest (Sha256.utf8Encode (f ++ ":" ++ c))).take 16) ∧
    (∀ f c f' c', f = f' → c = c' →
      CodebaseEmbedder.generate_chunk_id f c = CodebaseEmbedder.generate_chunk_id f' c') ∧
    (∀ f (chunks chunks' : List CodeChunk), chunks = chunks' →
      CodebaseEmbedder.index_file_ids f chunks = CodebaseEmbedder.index_file_ids f chunks') :=
  ⟨fun _ _ => rfl,
   fun _ _ _ _ hf hc => by rw [hf, hc],
   fun _ _ _ h => by rw [h]⟩

/-- **C5 witness.** The determinism conjuncts applied at a concrete file
path and chunk content. -/
theorem C5_chunk_id_deterministic_witness :
    CodebaseEmbedder.generate_chunk_id "Test.cs" "public class Test" =
      CodebaseEmbedder.generate_chunk_id "Test.cs" "public class Test" ∧
    CodebaseEmbedder.index_file_ids "Test.cs" [⟨"public class Test", [], 4⟩] =
      CodebaseEmbedder.index_file_ids "Test.cs" [⟨"public class Test", [], 4⟩] :=
  ⟨C5_chunk_id_deterministic.2.1 "Test.cs" "public class Test" "Test.cs" "public class Test"
     rfl rfl,
   C5_chunk_id_deterministic.2.2 "Test.cs" [⟨"public class Test", [], 4⟩]
     [⟨"public class Test", [], 4⟩] rfl⟩

/-- **C3.** With the file's stat succeeding, `_needs_reindexing` marks a
file iff the store lookup raised, or no point with `payload.file = f`
exists (empty ids), or the stored `file_mtime` is absent, or the current
mtime is strictly greater than the stored one (the indexer only ever
stores numeric `file_mtime` values, which the first hypothesis records);
consequently a second incremental `index()` run over an unchanged tree
reports `chunks_created = 0` and counts every unchanged file in
`files_skipped`. -/
theorem C3_incremental_skip :
    (∀ (current_mtime : ℚ) (g : Except Unit CodebaseEmbedder.GetResult),
      (∀ r v, g = Except.ok r → CodebaseEmbedder.stored_file_mtime r = some v →
        ∃ q, v = PValue.n q) →
      (CodebaseEmbedder.needs_reindexing (Except.ok current_mtime) g = true ↔
        (g = Except.error () ∨
         ∃ r, g = Except.ok r ∧
           (r.ids.isEmpty = true ∨
            CodebaseEmbedder.stored_file_mtime r = none ∨
            ∃ q, CodebaseEmbedder.stored_file_mtime r = some (PValue.n q) ∧
              q < current_mtime)))) ∧
    (∀ {α : Type} (files : List α) (stat : α → Except Unit ℚ)
        (get : α → Except Unit CodebaseEmbedder.GetResult)
        (index_file : α → Except Unit Nat),
      (∀ f ∈ files, ∃ cur r q, stat f = Except.ok cur ∧ get f = Except.ok r ∧
        r.ids.isEmpty = false ∧
        CodebaseEmbedder.stored_file_mtime r = some (PValue.n q) ∧ cur ≤ q) →
      CodebaseEmbedder.index_codebase files
          (fun f => CodebaseEmbedder.needs_reindexing (stat f) (get f)) true index_file =
        ⟨0, 0, 0, files.length⟩) := by
  constructor
  · intro current_mtime g hwf
    cases g with
    | error e =>
      simp [CodebaseEmbedder.needs_reindexing]
    | ok r =>
      unfold CodebaseEmbedder.needs_reindexing
      by_cases hids : r.ids.isEmpty
      · have h0 : r.ids = [] := List.isEmpty_iff.mp hids
        simp [hids, h0]
      · have hids' : ¬ r.ids = [] := fun h0 => hids (List.isEmpty_iff.mpr h0)
        cases hm : r.metadatas.head? with
        | none =>
          simp [hids, hids', hm, CodebaseEmbedder.stored_file_mtime]
        | some m =>
          cases hv : dictGet m "file_mtime" with
          | none =>
            simp [hids, hids', hm, hv, CodebaseEmbedder.stored_file_mtime]
          | some v =>
            obtain ⟨q, rfl⟩ := hwf r v rfl (by simp [CodebaseEmbedder.stored_file_mtime, hm, hv])
            simp [hids, hids', hm, hv, CodebaseEmbedder.stored_file_mtime]
  · intro α files stat get index_file hfiles
    have hneeds : ∀ f ∈ files,
        CodebaseEmbedder.needs_reindexing (stat f) (get f) = false := by
      intro f hf
      obtain ⟨cur, r, q, hstat, hget, hids, hmt, hle⟩ := hfiles f hf
      rw [hstat, hget]
      unfold CodebaseEmbedder.needs_reindexing
      unfold CodebaseEmbedder.stored_file_mtime at hmt
      cases hm : r.metadatas.head? with
      | none => rw [hm] at hmt; exact absurd hmt (by simp)
      | some m =>
        rw [hm] at hmt
        have hmt' : dictGet m "file_mtime" = some (PValue.n q) := by simpa using hmt
        simp [hids, hm, hmt', not_lt.mpr hle]
    have hfilter : files.filter
        (fun f => CodebaseEmbedder.needs_reindexing (stat f) (get f)) = [] := by
      rw [List.filter_eq_nil_iff]
      intro f hf
      simp [hneeds f hf]
    have hfilterneg : files.filter
        (fun f => ¬ CodebaseEmbedder.needs_reindexing (stat f) (get f)) = files := by
      rw [List.filter_eq_self]
      intro f hf
      simp [hneeds f hf]
    unfold CodebaseEmbedder.index_codebase
    by_cases hemp : files.isEmpty
    · have h0 : files = [] := List.isEmpty_iff.mp hemp
      subst h0
      simp
    · simp [hemp, hfilter, hfilterneg]
      exact hneeds

/-- **C3 witness.** A store answer with one point at mtime 5 and current
mtime 5 is skipped: the marking iff (applied where the store has no point,
marking the file) and the unchanged-tree run reporting
`{files_processed 0, chunks_created 0, errors 0, files_skipped 1}`. -/
theorem C3_incremental_skip_witness :
    CodebaseEmbedder.needs_reindexing (Except.ok (5 : ℚ))
        (Except.ok ⟨[], []⟩) = true ∧
    CodebaseEmbedder.index_codebase ["A.cs"]
        (fun _ => CodebaseEmbedder.needs_reindexing (Except.ok (5 : ℚ))
          (Except.ok ⟨[PValue.s "chunk_a"], [[("file_mtime", PValue.n 5)]]⟩))
        true (fun _ => Except.ok 3) = ⟨0, 0, 0, 1⟩ :=
  ⟨(C3_incremental_skip.1 5 (Except.ok ⟨[], []⟩)
      (fun r v hr hv => by
        cases hr
        exact absurd hv (by simp [CodebaseEmbedder.stored_file_mtime]))).mpr
    (Or.inr ⟨⟨[], []⟩, rfl, Or.inl rfl⟩),
   C3_incremental_skip.2 ["A.cs"] (fun _ => Except.ok 5)
     (fun _ => Except.ok ⟨[PValue.s "chunk_a"], [[("file_mtime", PValue.n 5)]]⟩)
     (fun _ => Except.ok 3)
     (fun f _ => ⟨5, ⟨[PValue.s "chunk_a"], [[("file_mtime", PValue.n 5)]]⟩, 5,
       rfl, rfl, rfl, rfl, le_refl 5⟩)⟩

/-- **C1 (failing-input evaluation).** The engine returns cosine
similarities 0.9 and 0.8, in the engine's descending-score order
(`vector_store.py` line 221 itself notes "Qdrant returns similarity
score, not distance", yet stores it under `distances`).  With
`similarity_threshold = 0.1`, `search_code` reports relevance scores
`[0.1, 0.2]` — the distances `1 − similarity`, in ascending order — where
the claim requires the cosine similarities `[0.9, 0.8]` in descending
order. -/
theorem C1_relevance_inversion_eval :
    (VectorStore.search (Except.ok
      [⟨"u1", [("type", PValue.s "class"), ("document", PValue.s "class A"),
               ("_original_id", PValue.s "chunk_a")], 9/10⟩,
       ⟨"u2", [("type", PValue.s "class"), ("document", PValue.s "class B"),
               ("_original_id", PValue.s "chunk_b")], 8/10⟩])).distances
        = [9/10, 8/10] ∧
    (SearchCode.search_code (1/10) (VectorStore.search (Except.ok
      [⟨"u1", [("type", PValue.s "class"), ("document", PValue.s "class A"),
               ("_original_id", PValue.s "chunk_a")], 9/10⟩,
       ⟨"u2", [("type", PValue.s "class"), ("document", PValue.s "class B"),
               ("_original_id", PValue.s "chunk_b")], 8/10⟩]))).map
        (fun r => r.relevance_score) = [1/10, 1/5] ∧
    ¬ ((1 : ℚ)/10 ≥ 1/5) ∧
    ([1/10, 1/5] : List ℚ) ≠ [9/10, 8/10] := by
  refine ⟨rfl, ?_, by norm_num, by simp; norm_num⟩
  simp only [VectorStore.search, VectorStore.format_point, SearchCode.search_code,
    SearchCode.rows_of, SearchCode.format_results, SearchCode.project, dictGet, dictRemove,
    List.map_cons, List.map_nil, List.zip_cons_cons, List.zip_nil_right, List.lookup,
    List.filter]
  norm_num [pyRound2]

/-- The filter chain of `_should_index_file`, as a conjunction of its four
rules. -/
theorem should_index_file_iff (root : List String) (exts : List String)
    (excl : String → Bool) (gi : Option (String → Bool))
    (e : CodebaseDiscovery.FSEntry) :
    CodebaseDiscovery.should_index_file root exts excl gi e = true ↔
      (e.is_file = true ∧
       exts.any (fun ext =>
         CodebaseDiscovery.py_suffix ((e.path.getLast?).getD "") == ext) = true ∧
       root.isPrefixOf e.path = true ∧
       excl (CodebaseDiscovery.posix_str (e.path.drop root.length)) = false ∧
       ∀ g, gi = some g →
         g (CodebaseDiscovery.posix_str (e.path.drop root.length)) = false) := by
  unfold CodebaseDiscovery.should_index_file
  cases h1 : e.is_file with
  | false => simp [h1]
  | true =>
    cases h2 : exts.any (fun ext =>
        CodebaseDiscovery.py_suffix ((e.path.getLast?).getD "") == ext) with
    | false => simp [h1, h2]
    | true =>
      cases h3 : root.isPrefixOf e.path with
      | false => simp [h1, h2, h3]
      | true =>
        cases h4 : excl (CodebaseDiscovery.posix_str (e.path.drop root.length)) with
        | true => simp [h1, h2, h3, h4]
        | false =>
          cases gi with
          | none => simp [h1, h2, h3, h4]
          | some g =>
            cases h5 : g (CodebaseDiscovery.posix_str (e.path.drop root.length)) with
            | true => simp [h1, h2, h3, h4, h5]
            | false => simp [h1, h2, h3, h4, h5]

/-- **C6.** Discovery fails with `ConfigError` (`ValueError` in the
source) when the root does not exist; otherwise `discover_files` returns a
lexicographically sorted list (Python compares paths by their string
rendering) containing exactly the regular files strictly under the root
whose extension is in the allow-list, whose root-relative POSIX path
matches no exclude glob, and which the repository-ignore spec, when
present, does not match. -/
theorem C6_discover_files (root : List String) (exts : List String)
    (excl : String → Bool) (gi : Option (String → Bool))
    (fs : List CodebaseDiscovery.FSEntry) (root_exists : Bool)
    (hroot : root_exists = false) :
    CodebaseDiscovery.discovery_init root_exists =
      Except.error CodebaseDiscovery.ConfigError.root_missing ∧
    (CodebaseDiscovery.discover_files root exts excl gi fs).Pairwise
      (fun a b => CodebaseDiscovery.path_str a ≤ CodebaseDiscovery.path_str b) ∧
    (∀ p, p ∈ CodebaseDiscovery.discover_files root exts excl gi fs ↔
      ∃ e, e ∈ fs ∧ e.path = p ∧ e.is_file = true ∧
        root.isPrefixOf p = true ∧ root.length < p.length ∧
        exts.any (fun ext =>
          CodebaseDiscovery.py_suffix ((p.getLast?).getD "") == ext) = true ∧
        excl (CodebaseDiscovery.posix_str (p.drop root.length)) = false ∧
        ∀ g, gi = some g →
          g (CodebaseDiscovery.posix_str (p.drop root.length)) = false) := by
  subst hroot
  refine ⟨rfl, ?_, ?_⟩
  · unfold CodebaseDiscovery.discover_files
    refine List.Pairwise.imp (fun h => of_decide_eq_true h)
      (List.sorted_mergeSort
        (fun a b c hab hbc => by
          rw [decide_eq_true_eq] at *
          exact le_trans hab hbc)
        (fun a b => by
          rw [Bool.or_eq_true, decide_eq_true_eq, decide_eq_true_eq]
          exact le_total _ _)
        (((CodebaseDiscovery.rglob root fs).filter
          (CodebaseDiscovery.should_index_file root exts excl gi)).map
          (fun e => e.path)))
  · intro p
    unfold CodebaseDiscovery.discover_files
    rw [(List.mergeSort_perm _ _).mem_iff]
    constructor
    · intro hp
      obtain ⟨e, he, hep⟩ := List.mem_map.mp hp
      obtain ⟨hrg, hshould⟩ := List.mem_filter.mp he
      obtain ⟨hfs, hcond⟩ := List.mem_filter.mp hrg
      rw [Bool.and_eq_true, decide_eq_true_eq] at hcond
      obtain ⟨f1, f2, f3, f4, f5⟩ := (should_index_file_iff root exts excl gi e).mp hshould
      subst hep
      exact ⟨e, hfs, rfl, f1, hcond.1, hcond.2, f2, f4, f5⟩
    · rintro ⟨e, hefs, hpath, hfile, hpre, hlen, hext, hexcl, hgi⟩
      apply List.mem_map.mpr
      refine ⟨e, ?_, hpath⟩
      apply List.mem_filter.mpr
      subst hpath
      constructor
      · apply List.mem_filter.mpr
        refine ⟨hefs, ?_⟩
        rw [Bool.and_eq_true, decide_eq_true_eq]
        exact ⟨hpre, hlen⟩
      · rw [should_index_file_iff]
        exact ⟨hfile, hext, hpre, hexcl, hgi⟩

/-- **C6 witness.** A two-entry filesystem under root `/repo`: the missing
root raises, the output is sorted, and `repo/A.cs` is discovered. -/
theorem C6_discover_files_witness :
    CodebaseDiscovery.discovery_init false =
      Except.error CodebaseDiscovery.ConfigError.root_missing ∧
    (CodebaseDiscovery.discover_files ["repo"] [".cs"] (fun _ => false) none
      [⟨["repo", "A.cs"], true⟩, ⟨["repo", "obj"], false⟩]).Pairwise
      (fun a b => CodebaseDiscovery.path_str a ≤ CodebaseDiscovery.path_str b) ∧
    ["repo", "A.cs"] ∈ CodebaseDiscovery.discover_files ["repo"] [".cs"]
      (fun _ => false) none
      [⟨["repo", "A.cs"], true⟩, ⟨["repo", "obj"], false⟩] :=
  have h := C6_discover_files ["repo"] [".cs"] (fun _ => false) none
    [⟨["repo", "A.cs"], true⟩, ⟨["repo", "obj"], false⟩] false rfl
  ⟨h.1, h.2.1,
   (h.2.2 ["repo", "A.cs"]).mpr
     ⟨⟨["repo", "A.cs"], true⟩, by decide, rfl, rfl, by decide, by decide, by decide,
      by decide, fun g hg => nomatch hg⟩⟩

/-! ### Dictionary and upsert lemmas for the round-trip claim -/

theorem dictGet_dictSet_self (d : Payload) (k : String) (v : PValue) :
    dictGet (dictSet d k v) k = some v := by
  induction d with
  | nil => simp [dictSet, dictGet, List.lookup]
  | cons kv rest ih =>
    obtain ⟨a, b⟩ := kv
    by_cases h : a = k
    · simp [dictSet, h, dictGet, List.lookup]
    · simp only [dictSet, dictGet, List.lookup, if_neg h]
      rw [show (k == a) = false from beq_eq_false_iff_ne.mpr (fun he => h he.symm)]
      exact ih

theorem dictGet_dictSet_other (d : Payload) (k k' : String) (v : PValue) (h : k' ≠ k) :
    dictGet (dictSet d k v) k' = dictGet d k' := by
  induction d with
  | nil =>
    simp only [dictSet, dictGet, List.lookup]
    rw [show (k' == k) = false from beq_eq_false_iff_ne.mpr h]
  | cons kv rest ih =>
    obtain ⟨a, b⟩ := kv
    by_cases ha : a = k
    · subst ha
      simp only [dictSet, dictGet, List.lookup, if_pos rfl]
      rw [show (k' == a) = false from beq_eq_false_iff_ne.mpr h]
    · simp only [dictSet, dictGet, List.lookup, if_neg ha]
      by_cases hk : k' = a
      · subst hk
        simp [List.lookup]
      · rw [show (k' == a) = false from beq_eq_false_iff_ne.mpr hk]
        simpa using ih

theorem dictGet_dictRemove_self (d : Payload) (k : String) :
    dictGet (dictRemove d k) k = none := by
  induction d with
  | nil => simp [dictRemove, dictGet, List.lookup]
  | cons kv rest ih =>
    obtain ⟨a, b⟩ := kv
    by_cases h : a = k
    · simpa [dictRemove, dictGet, h] using ih
    · simp only [dictRemove, dictGet, List.filter] at ih ⊢
      rw [show (a != k) = true from bne_iff_ne.mpr h]
      simp only [List.lookup]
      rw [show (k == a) = false from beq_eq_false_iff_ne.mpr (fun he => h he.symm)]
      exact ih

theorem dictGet_dictRemove_other (d : Payload) (k k' : String) (h : k' ≠ k) :
    dictGet (dictRemove d k) k' = dictGet d k' := by
  induction d with
  | nil => simp [dictRemove, dictGet]
  | cons kv rest ih =>
    obtain ⟨a, b⟩ := kv
    by_cases ha : a = k
    · subst ha
      simp only [dictRemove, dictGet, List.filter, bne_self_eq_false] at ih ⊢
      simp only [List.lookup]
      rw [show (k' == a) = false from beq_eq_false_iff_ne.mpr h]
      exact ih
    · simp only [dictRemove, dictGet, List.filter] at ih ⊢
      rw [show (a != k) = true from bne_iff_ne.mpr ha]
      by_cases hk : k' = a
      · subst hk
        simp [List.lookup]
      · simp only [List.lookup]
        rw [show (k' == a) = false from beq_eq_false_iff_ne.mpr hk]
        exact ih

theorem lookup_upsert_point_self (c : Collection) (k : String) (p : StoredPoint) :
    List.lookup k (VectorStore.upsert_point c k p) = some p := by
  induction c with
  | nil => simp [VectorStore.upsert_point, List.lookup]
  | cons kv rest ih =>
    obtain ⟨a, b⟩ := kv
    by_cases h : a = k
    · simp [VectorStore.upsert_point, h, List.lookup]
    · simp only [VectorStore.upsert_point, if_neg h, List.lookup]
      rw [show (k == a) = false from beq_eq_false_iff_ne.mpr (fun he => h he.symm)]
      exact ih

theorem lookup_upsert_point_other (c : Collection) (k k' : String) (p : StoredPoint)
    (h : k' ≠ k) :
    List.lookup k' (VectorStore.upsert_point c k p) = List.lookup k' c := by
  induction c with
  | nil =>
    simp only [VectorStore.upsert_point, List.lookup]
    rw [show (k' == k) = false from beq_eq_false_iff_ne.mpr h]
  | cons kv rest ih =>
    obtain ⟨a, b⟩ := kv
    by_cases ha : a = k
    · subst ha
      simp only [VectorStore.upsert_point, if_pos rfl, List.lookup]
      rw [show (k' == a) = false from beq_eq_false_iff_ne.mpr h]
    · simp only [VectorStore.upsert_point, if_neg ha, List.lookup]
      by_cases hk : k' = a
      · subst hk
        simp
      · rw [show (k' == a) = false from beq_eq_false_iff_ne.mpr hk]
        simpa using ih

theorem lookup_append_pairs {A : Type} (l₁ l₂ : List (String × A)) (k : String) :
    List.lookup k (l₁ ++ l₂) =
      (match List.lookup k l₁ with
       | some v => some v
       | none => List.lookup k l₂) := by
  induction l₁ with
  | nil => simp [List.lookup]
  | cons kv rest ih =>
    obtain ⟨a, b⟩ := kv
    by_cases h : k = a
    · subst h
      simp [List.lookup]
    · simp only [List.cons_append, List.lookup]
      rw [show (k == a) = false from beq_eq_false_iff_ne.mpr h]
      exact ih

theorem lookup_upsert_points (base : Collection) (pts : List (String × StoredPoint))
    (k : String) :
    List.lookup k (VectorStore.upsert_points base pts) =
      (match List.lookup k pts.reverse with
       | some p => some p
       | none => List.lookup k base) := by
  induction pts generalizing base with
  | nil => simp [VectorStore.upsert_points, List.lookup]
  | cons kp rest ih =>
    obtain ⟨a, p⟩ := kp
    have hstep : VectorStore.upsert_points base ((a, p) :: rest) =
        VectorStore.upsert_points (VectorStore.upsert_point base a p) rest := rfl
    rw [hstep, ih]
    rw [List.reverse_cons, lookup_append_pairs]
    cases hl : List.lookup k rest.reverse with
    | some q => rfl
    | none =>
      by_cases hk : k = a
      · subst hk
        simp only [List.lookup]
        rw [show (k == k) = true from beq_self_eq_true k]
        exact lookup_upsert_point_self base k p
      · simp only [List.lookup]
        rw [show (k == a) = false from beq_eq_false_iff_ne.mpr hk]
        exact lookup_upsert_point_other base a k p hk

theorem lookup_of_mem_nodup_keys {A : Type} (l : List (String × A)) (k : String) (v : A)
    (hnd : (l.map Prod.fst).Nodup) (hm : (k, v) ∈ l) :
    List.lookup k l = some v := by
  induction l with
  | nil => cases hm
  | cons kv rest ih =>
    obtain ⟨a, b⟩ := kv
    rcases List.mem_cons.mp hm with heq | htail
    · cases heq
      simp [List.lookup]
    · have hka : k ≠ a := by
        intro he
        subst he
        have : k ∈ rest.map Prod.fst := List.mem_map.mpr ⟨(k, v), htail, rfl⟩
        exact (List.nodup_cons.mp hnd).1 this
      simp only [List.lookup]
      rw [show (k == a) = false from beq_eq_false_iff_ne.mpr hka]
      exact ih (List.nodup_cons.mp hnd).2 htail

theorem zip4_map_last {A B C D : Type} :
    ∀ (l₁ : List A) (l₂ : List B) (l₃ : List C) (l₄ : List D),
      l₁.length = l₂.length → l₂.length = l₃.length → l₃.length = l₄.length →
      (l₁.zip (l₂.zip (l₃.zip l₄))).map (fun x => x.2.2.2) = l₄
  | [], [], [], [], _, _, _ => rfl
  | a :: l₁, b :: l₂, c :: l₃, d :: l₄, h₁, h₂, h₃ => by
    simp only [List.zip_cons_cons, List.map_cons, List.cons.injEq, true_and]
    exact zip4_map_last l₁ l₂ l₃ l₄ (by simpa using h₁) (by simpa using h₂) (by simpa using h₃)
  | [], b :: l₂, _, _, h₁, _, _ => by simp at h₁
  | a :: l₁, [], _, _, h₁, _, _ => by simp at h₁
  | _, [], c :: l₃, _, _, h₂, _ => by simp at h₂
  | _, b :: l₂, [], _, _, h₂, _ => by simp at h₂
  | _, _, [], d :: l₄, _, _, h₃ => by simp at h₃
  | _, _, c :: l₃, [], _, _, h₃ => by simp at h₃

/-- **C7 counterexample.** A metadata map that uses the reserved payload
key `document` does not round-trip: the wrapper overwrites it with the
document text, and retrieval pops it, so the returned metadata is empty
while the input bound `document` to `"evil"`. -/
theorem C7_roundtrip_counterexample :
    VectorStore.add_embeddings (fun s => s) ⟨1, none⟩ [[1]] ["doc"]
        [[("document", PValue.s "evil")]] ["cid"] =
      Except.ok ⟨1, some [("cid", ⟨[1],
        [("document", PValue.s "doc"), ("_original_id", PValue.s "cid")]⟩)]⟩ ∧
    VectorStore.get_by_id (fun s => s)
        ⟨1, some [("cid", ⟨[1],
          [("document", PValue.s "doc"), ("_original_id", PValue.s "cid")]⟩)]⟩ "cid" =
      some ⟨PValue.s "cid", PValue.s "doc", [], [1]⟩ ∧
    ¬ payloadEquiv [] [("document", PValue.s "evil")] := by
  refine ⟨rfl, rfl, ?_⟩
  intro h
  have := h "document"
  simp [dictGet, List.lookup] at this

/-- **C7 (amended).** For every point of an upsert batch whose ids map to
pairwise-distinct store keys and whose metadata uses neither of the
reserved payload keys `document` and `_original_id`, retrieving that point
by its id afterwards returns the stored document content together with a
metadata map equal to the input metadata up to key ordering. -/
theorem C7_upsert_retrieve_roundtrip
    (to_uuid : String → String) (st st' : VSState)
    (embeddings : List (List ℚ)) (documents : List String)
    (metadatas : List Payload) (ids : List String)
    (emb : List ℚ) (doc : String) (md : Payload) (pid : String)
    (hmem : (emb, (doc, (md, pid))) ∈ embeddings.zip (documents.zip (metadatas.zip ids)))
    (hlen1 : embeddings.length = documents.length)
    (hlen2 : documents.length = metadatas.length)
    (hlen3 : metadatas.length = ids.length)
    (hnd : (ids.map to_uuid).Nodup)
    (hdoc : dictGet md "document" = none)
    (hoid : dictGet md "_original_id" = none)
    (hok : VectorStore.add_embeddings to_uuid st embeddings documents metadatas ids =
      Except.ok st') :
    ∃ r : VectorStore.RetrievedPoint,
      VectorStore.get_by_id to_uuid st' pid = some r ∧
      r.id = PValue.s pid ∧ r.document = PValue.s doc ∧ r.embedding = emb ∧
      payloadEquiv r.metadata md := by
  have hne : embeddings ≠ [] := by
    rintro rfl
    simp at hmem
  -- dissect add_embeddings
  unfold VectorStore.add_embeddings at hok
  rw [if_neg (not_not_intro ⟨hlen1, hlen2, hlen3⟩)] at hok
  rw [if_neg (fun hx => hne (List.isEmpty_iff.mp hx))] at hok
  have hok2 := Except.ok.inj hok
  -- the upserted point for our row
  have hptmem : (to_uuid pid, (⟨emb, VectorStore.build_payload md doc pid⟩ : StoredPoint)) ∈
      (embeddings.zip (documents.zip (metadatas.zip ids))).map
        (fun x => (to_uuid x.2.2.2,
          ⟨x.1, VectorStore.build_payload x.2.2.1 x.2.1 x.2.2.2⟩)) :=
    List.mem_map.mpr ⟨(emb, (doc, (md, pid))), hmem, rfl⟩
  have hkeys : ((embeddings.zip (documents.zip (metadatas.zip ids))).map
      (fun x => (to_uuid x.2.2.2,
        (⟨x.1, VectorStore.build_payload x.2.2.1 x.2.1 x.2.2.2⟩ : StoredPoint)))).map
        Prod.fst = ids.map to_uuid := by
    have h1 : ∀ l : List (List ℚ × String × Payload × String),
        (l.map (fun x => (to_uuid x.2.2.2,
          (⟨x.1, VectorStore.build_payload x.2.2.1 x.2.1 x.2.2.2⟩ : StoredPoint)))).map
            Prod.fst = (l.map (fun x => x.2.2.2)).map to_uuid := by
      intro l
      induction l with
      | nil => rfl
      | cons a t ih => simp only [List.map_cons, ih]
    rw [h1, zip4_map_last embeddings documents metadatas ids hlen1 hlen2 hlen3]
  have hlook : ∀ base : Collection, List.lookup (to_uuid pid) (VectorStore.upsert_points base
      ((embeddings.zip (documents.zip (metadatas.zip ids))).map
        (fun x => (to_uuid x.2.2.2,
          ⟨x.1, VectorStore.build_payload x.2.2.1 x.2.1 x.2.2.2⟩)))) =
      some ⟨emb, VectorStore.build_payload md doc pid⟩ := by
    intro base
    rw [lookup_upsert_points]
    rw [lookup_of_mem_nodup_keys _ (to_uuid pid) ⟨emb, VectorStore.build_payload md doc pid⟩
      (by rw [List.map_reverse, hkeys]; exact List.nodup_reverse.mpr hnd)
      (List.mem_reverse.mpr hptmem)]
  -- payload facts
  have hp_oid : dictGet (VectorStore.build_payload md doc pid) "_original_id" =
      some (PValue.s pid) := dictGet_dictSet_self _ _ _
  have hp_doc : dictGet (dictRemove (VectorStore.build_payload md doc pid) "_original_id")
      "document" = some (PValue.s doc) := by
    rw [dictGet_dictRemove_other _ _ _ (by decide)]
    unfold VectorStore.build_payload
    rw [dictGet_dictSet_other _ _ _ _ (by decide)]
    exact dictGet_dictSet_self _ _ _
  refine ⟨⟨PValue.s pid, PValue.s doc,
    dictRemove (dictRemove (VectorStore.build_payload md doc pid) "_original_id") "document",
    emb⟩, ?_, rfl, rfl, rfl, ?_⟩
  · rw [← hok2]
    unfold VectorStore.get_by_id
    simp only []
    rw [hlook]
    simp only [hp_oid, hp_doc]
  · intro k
    by_cases hk1 : k = "document"
    · subst hk1
      rw [dictGet_dictRemove_self, hdoc]
    · rw [dictGet_dictRemove_other _ _ _ hk1]
      by_cases hk2 : k = "_original_id"
      · subst hk2
        rw [dictGet_dictRemove_self, hoid]
      · rw [dictGet_dictRemove_other _ _ _ hk2]
        unfold VectorStore.build_payload
        rw [dictGet_dictSet_other _ _ _ _ hk2, dictGet_dictSet_other _ _ _ _ hk1]

/-- **C7 witness.** The round-trip theorem applied to a one-point batch
with metadata `{file: "A.cs"}`: retrieval returns the document and the
metadata unchanged. -/
theorem C7_upsert_retrieve_roundtrip_witness :
    ∃ r : VectorStore.RetrievedPoint,
      VectorStore.get_by_id (fun s => s)
        ⟨1, some [("chunk_x", ⟨[2], [("file", PValue.s "A.cs"),
          ("document", PValue.s "content"),
          ("_original_id", PValue.s "chunk_x")]⟩)]⟩ "chunk_x" = some r ∧
      r.id = PValue.s "chunk_x" ∧ r.document = PValue.s "content" ∧ r.embedding = [2] ∧
      payloadEquiv r.metadata [("file", PValue.s "A.cs")] :=
  C7_upsert_retrieve_roundtrip (fun s => s) ⟨1, none⟩
    ⟨1, some [("chunk_x", ⟨[2], [("file", PValue.s "A.cs"),
      ("document", PValue.s "content"), ("_original_id", PValue.s "chunk_x")]⟩)]⟩
    [[2]] ["content"] [[("file", PValue.s "A.cs")]] ["chunk_x"]
    [2] "content" [("file", PValue.s "A.cs")] "chunk_x"
    (List.mem_singleton.mpr rfl) rfl rfl rfl
    (by simp) rfl rfl rfl

/-! ### Chunker token-budget lemmas -/

theorem dropLast_subset_self {α : Type} (l : List α) : l.dropLast ⊆ l := by
  rw [List.dropLast_eq_take]
  exact List.take_subset _ _

theorem intercalate_singleton (s a : String) : String.intercalate s [a] = a := rfl

/-- The shrink loop either reaches the token budget or bottoms out at one
line. -/
theorem shrink_window_aux_spec (cs : Nat) (hdr : String) :
    ∀ (n : Nat) (ls : List String), ls.length ≤ n →
      SemanticChunker.count_tokens
        (hdr ++ "\n" ++ String.intercalate "\n"
          (SemanticChunker.shrink_window_aux cs hdr n ls)) ≤ cs ∨
      (SemanticChunker.shrink_window_aux cs hdr n ls).length ≤ 1 := by
  intro n
  induction n with
  | zero =>
    intro ls hle
    have h0 : ls = [] := List.length_eq_zero.mp (Nat.le_zero.mp hle)
    subst h0
    right
    simp [SemanticChunker.shrink_window_aux]
  | succ n ih =>
    intro ls hle
    unfold SemanticChunker.shrink_window_aux
    by_cases hc : cs < SemanticChunker.count_tokens
        (hdr ++ "\n" ++ String.intercalate "\n" ls) ∧ 1 < ls.length
    · rw [if_pos hc]
      apply ih
      have := hc.2
      simp only [List.length_dropLast]
      omega
    · rw [if_neg hc]
      rcases not_and_or.mp hc with h | h
      · left
        omega
      · right
        omega

/-- The shrink loop only ever drops lines. -/
theorem shrink_window_aux_subset (cs : Nat) (hdr : String) :
    ∀ (n : Nat) (ls : List String),
      SemanticChunker.shrink_window_aux cs hdr n ls ⊆ ls := by
  intro n
  induction n with
  | zero =>
    intro ls
    simp [SemanticChunker.shrink_window_aux]
  | succ n ih =>
    intro ls
    unfold SemanticChunker.shrink_window_aux
    by_cases hc : cs < SemanticChunker.count_tokens
        (hdr ++ "\n" ++ String.intercalate "\n" ls) ∧ 1 < ls.length
    · rw [if_pos hc]
      exact (ih ls.dropLast).trans (dropLast_subset_self ls)
    · rw [if_neg hc]
      exact List.Subset.refl ls

theorem py_slice_subset {α : Type} (xs : List α) (a b : Int) :
    SemanticChunker.py_slice xs a b ⊆ xs := by
  unfold SemanticChunker.py_slice
  exact (List.take_subset _ _).trans (List.drop_subset _ _)

/-- Every chunk the sliding-window loop emits fits the budget or is the
header plus a single source line. -/
theorem sliding_loop_spec (cs : Nat) (node : CodeNode) (hdr : String)
    (lines : List String) (est ovl : Nat) :
    ∀ (fuel : Nat) (start : Int),
      ∀ ch ∈ SemanticChunker.sliding_loop cs node hdr lines est ovl fuel start,
        ch.token_count ≤ cs ∨ ∃ l ∈ lines, ch.content = hdr ++ "\n" ++ l := by
  intro fuel
  induction fuel with
  | zero =>
    intro start ch hch
    simp [SemanticChunker.sliding_loop] at hch
  | succ fuel ih =>
    intro start ch hch
    by_cases hst : start < (lines.length : Int)
    · rw [SemanticChunker.sliding_loop, if_pos hst] at hch
      have hemit : ∀ hm : ch ∈ (if (SemanticChunker.shrink_window cs hdr
          (SemanticChunker.py_slice lines start
            (min (start + (est : Int)) (lines.length : Int)))).isEmpty then
            ([] : List CodeChunk)
          else [SemanticChunker.create_chunk
            (hdr ++ "\n" ++ String.intercalate "\n"
              (SemanticChunker.shrink_window cs hdr
                (SemanticChunker.py_slice lines start
                  (min (start + (est : Int)) (lines.length : Int)))))
            node
            (some (SemanticChunker.count_tokens
              (hdr ++ "\n" ++ String.intercalate "\n"
                (SemanticChunker.shrink_window cs hdr
                  (SemanticChunker.py_slice lines start
                    (min (start + (est : Int)) (lines.length : Int)))))))]),
          ch.token_count ≤ cs ∨ ∃ l ∈ lines, ch.content = hdr ++ "\n" ++ l := by
        intro hm
        by_cases he : (SemanticChunker.shrink_window cs hdr
            (SemanticChunker.py_slice lines start
              (min (start + (est : Int)) (lines.length : Int)))).isEmpty
        · rw [if_pos he] at hm
          cases hm
        · rw [if_neg he] at hm
          have hch2 := List.mem_singleton.mp hm
          subst hch2
          have hspec := shrink_window_aux_spec cs hdr
            (SemanticChunker.py_slice lines start
              (min (start + (est : Int)) (lines.length : Int))).length
            (SemanticChunker.py_slice lines start
              (min (start + (est : Int)) (lines.length : Int)))
            (le_refl _)
          rcases hspec with hfits | hone
          · left
            simpa [SemanticChunker.create_chunk, SemanticChunker.shrink_window] using hfits
          · right
            have hne : (SemanticChunker.shrink_window cs hdr
                (SemanticChunker.py_slice lines start
                  (min (start + (est : Int)) (lines.length : Int)))) ≠ [] := by
              intro h0
              rw [h0] at he
              exact he rfl
            have hlen1 : (SemanticChunker.shrink_window cs hdr
                (SemanticChunker.py_slice lines start
                  (min (start + (est : Int)) (lines.length : Int)))).length = 1 := by
              have hpos : 0 < (SemanticChunker.shrink_window cs hdr
                  (SemanticChunker.py_slice lines start
                    (min (start + (est : Int)) (lines.length : Int)))).length :=
                List.length_pos.mpr hne
              unfold SemanticChunker.shrink_window at hpos ⊢
              omega
            obtain ⟨l, hl⟩ := List.length_eq_one.mp hlen1
            refine ⟨l, ?_, ?_⟩
            · have hmem : l ∈ SemanticChunker.shrink_window cs hdr
                  (SemanticChunker.py_slice lines start
                    (min (start + (est : Int)) (lines.length : Int))) := by
                rw [hl]
                exact List.mem_singleton.mpr rfl
              exact py_slice_subset lines start _
                (shrink_window_aux_subset cs hdr _ _ hmem)
            · simp only [SemanticChunker.create_chunk]
              rw [hl, intercalate_singleton]
      by_cases hbrk : (min (start + (est : Int)) (lines.length : Int)) - (ovl : Int) ≥
          (lines.length : Int) - (ovl : Int)
      · rw [if_pos hbrk] at hch
        exact hemit hch
      · rw [if_neg hbrk] at hch
        rcases List.mem_append.mp hch with hm | hm
        · exact hemit hm
        · exact ih _ ch hm
    · rw [SemanticChunker.sliding_loop, if_neg hst] at hch
      cases hch

/-- Every chunk `_chunk_node` emits fits the budget, or is the fallback
chunk (header plus the full node code), or is a single-line sliding-window
chunk. -/
theorem chunk_node_spec (cs ovl fuel : Nat) (node : CodeNode) :
    ∀ ch ∈ SemanticChunker.chunk_node cs ovl fuel node,
      ch.token_count ≤ cs ∨
      ch.content = SemanticChunker.build_context_header node ++ "\n" ++ node.code ∨
      ∃ l ∈ SemanticChunker.splitlines node.code,
        ch.content = SemanticChunker.build_context_header node ++ "\n" ++ l := by
  intro ch hch
  unfold SemanticChunker.chunk_node at hch
  by_cases hfits : SemanticChunker.count_tokens
      (SemanticChunker.build_context_header node ++ "\n" ++ node.code) ≤ cs
  · rw [if_pos hfits] at hch
    have := List.mem_singleton.mp hch
    subst this
    left
    simpa [SemanticChunker.create_chunk] using hfits
  · rw [if_neg hfits] at hch
    unfold SemanticChunker.split_large_node at hch
    by_cases hcont : node.type = "class" ∨ node.type = "interface" ∨ node.type = "struct"
    · rw [if_pos hcont] at hch
      by_cases hsig : SemanticChunker.count_tokens
          (SemanticChunker.build_context_header node ++ "\n" ++
            SemanticChunker.extract_signature node.code) ≤ cs
      · rw [if_pos hsig] at hch
        simp only [List.isEmpty_cons, if_false, Bool.false_eq_true] at hch
        have := List.mem_singleton.mp hch
        subst this
        left
        simpa [SemanticChunker.create_chunk] using hsig
      · rw [if_neg hsig] at hch
        simp only [List.isEmpty_nil, if_true] at hch
        have := List.mem_singleton.mp hch
        subst this
        right; left
        rfl
    · rw [if_neg hcont] at hch
      by_cases hemp : (SemanticChunker.sliding_window_chunk cs ovl fuel node
          (SemanticChunker.build_context_header node)).isEmpty
      · rw [if_pos hemp] at hch
        have := List.mem_singleton.mp hch
        subst this
        right; left
        rfl
      · rw [if_neg hemp] at hch
        unfold SemanticChunker.sliding_window_chunk at hch
        by_cases hlines : (SemanticChunker.splitlines node.code).isEmpty
        · rw [if_pos hlines] at hch
          cases hch
        · rw [if_neg hlines] at hch
          rcases sliding_loop_spec cs node (SemanticChunker.build_context_header node)
            (SemanticChunker.splitlines node.code)
            (max 5 (cs / 6)) (max 1 (ovl / 6)) fuel 0 ch hch with hle | hone
          · exact Or.inl hle
          · exact Or.inr (Or.inr hone)

/-- **C2 counterexample.** With `chunk_size_tokens = 1` (legal per the
configuration bounds) a method node whose code is the single 10-character
line `aaaaaaaaaa` produces exactly one sliding-window chunk, of
`token_count = 2 > 1`: the shrink loop cannot split below one line, so the
emitted chunk exceeds the budget. -/
theorem C2_chunk_budget_counterexample :
    (SemanticChunker.chunk_nodes 1 0 1
        [⟨"method", "M", 1, 1, "aaaaaaaaaa", none, none, none, none⟩]).map
      (fun ch => (ch.content, ch.token_count)) = [("\naaaaaaaaaa", 2)] ∧
    ¬ (2 ≤ 1) := by
  exact ⟨by decide, by omega⟩

/-- **C2 (amended).** For every input node list, configured
`chunk_size_tokens` and `chunk_overlap_tokens`, and loop bound, every
emitted chunk satisfies `token_count ≤ chunk_size_tokens` **unless** it is
(a) the fallback chunk emitted when splitting produced no chunks — its
content is the context header plus the node's full code — or (b) a
sliding-window chunk shrunk to a single source line whose content with the
header still exceeds the budget.  In particular the signature-only path
and every multi-line sliding-window chunk respect the budget. -/
theorem C2_chunk_token_budget (chunk_size overlap fuel : Nat) (nodes : List CodeNode)
    (ch : CodeChunk) (hch : ch ∈ SemanticChunker.chunk_nodes chunk_size overlap fuel nodes) :
    ∃ node ∈ nodes,
      ch.token_count ≤ chunk_size ∨
      ch.content = SemanticChunker.build_context_header node ++ "\n" ++ node.code ∨
      ∃ l ∈ SemanticChunker.splitlines node.code,
        ch.content = SemanticChunker.build_context_header node ++ "\n" ++ l := by
  unfold SemanticChunker.chunk_nodes at hch
  rw [List.mem_flatten] at hch
  obtain ⟨l, hl, hchl⟩ := hch
  obtain ⟨node, hnode, rfl⟩ := List.mem_map.mp hl
  exact ⟨node, hnode, chunk_node_spec chunk_size overlap fuel node ch hchl⟩

/-- **C2 witness.** The amended theorem applied to the counterexample
input: the only emitted chunk is the single-line exception. -/
theorem C2_chunk_token_budget_witness :
    ∃ node ∈ [(⟨"method", "M", 1, 1, "aaaaaaaaaa", none, none, none, none⟩ : CodeNode)],
      (⟨"\naaaaaaaaaa",
        [("file", PValue.s ""), ("lines", PValue.ns [(1 : Nat), (1 : Nat)]),
         ("type", PValue.s "method"), ("name", PValue.s "M"),
         ("hierarchy", PValue.s "M")], 2⟩ : CodeChunk).token_count ≤ 1 ∨
      (⟨"\naaaaaaaaaa",
        [("file", PValue.s ""), ("lines", PValue.ns [(1 : Nat), (1 : Nat)]),
         ("type", PValue.s "method"), ("name", PValue.s "M"),
         ("hierarchy", PValue.s "M")], 2⟩ : CodeChunk).content =
        SemanticChunker.build_context_header node ++ "\n" ++ node.code ∨
      ∃ l ∈ SemanticChunker.splitlines node.code,
        (⟨"\naaaaaaaaaa",
          [("file", PValue.s ""), ("lines", PValue.ns [(1 : Nat), (1 : Nat)]),
           ("type", PValue.s "method"), ("name", PValue.s "M"),
           ("hierarchy", PValue.s "M")], 2⟩ : CodeChunk).content =
          SemanticChunker.build_context_header node ++ "\n" ++ l :=
  C2_chunk_token_budget 1 0 1
    [⟨"method", "M", 1, 1, "aaaaaaaaaa", none, none, none, none⟩]
    ⟨"\naaaaaaaaaa",
      [("file", PValue.s ""), ("lines", PValue.ns [(1 : Nat), (1 : Nat)]),
       ("type", PValue.s "method"), ("name", PValue.s "M"),
       ("hierarchy", PValue.s "M")], 2⟩
    (by decide)

end Mag
